import Mathlib

/-!
Verification of the infinite-scroll calendar repository.

Shallow embedding of:
* `src/utils/dateUtils.ts` (two divergent copies exist in the repository;
  the first copy is the one imported by `src/hooks/useInfiniteScroll.ts`,
  the second copy is embedded as the `V2` functions),
* the month-window engine of `src/hooks/useInfiniteScroll.ts`
  (initialisation effect, `loadMoreMonthsEnd`, `loadMoreMonthsStart`,
  `jumpToYear`, `detectVisibleMonth`),
* `src/utils/datasetLoader.ts`,
* `src/components/SwipeNavigator.tsx`.

Machine integers of the host are IEEE doubles holding exact integers in the
ranges used here, so they are modelled by `Int`.  Pixel coordinates are
modelled by `ℚ`.  JS `Math.floor(a / b)` is floor division (`Int.fdiv`) and
the JS `%` operator is the remainder with the sign of the dividend, defined
below as `jsRem`.
-/

namespace Cal

/-- JS `%` (remainder with the sign of the dividend, divisor positive in all
uses here): `a % b` in JS is `a - trunc(a/b)*b`; for `0 ≤ a` it agrees with
the euclidean remainder, for `a < 0` it is the negation of the euclidean
remainder of `-a`. -/
def jsRem (a b : Int) : Int :=
  if 0 ≤ a then a % b else -((-a) % b)

/-- JS `Math.floor(a / b)`: floor division. -/
def jsFloorDiv (a b : Int) : Int :=
  Int.fdiv a b

/-- JS `Math.ceil(a / b)` for a nonnegative numerator, used by the second
copy of `generateMonths` as `Math.ceil(Math.abs(month) / 12)`. -/
def jsCeilDivNat (a b : Nat) : Nat :=
  (a + (b - 1)) / b

/-- Proleptic Gregorian leap-year rule, as implemented by the host `Date`. -/
def isLeapYear (y : Int) : Bool :=
  y % 4 == 0 && (y % 100 != 0 || y % 400 == 0)

/-- Number of days of the calendar month `m0` (0-based, already in `0..11`)
of year `y`. -/
def monthLength (y m0 : Int) : Int :=
  if m0 == 1 then (if isLeapYear y then 29 else 28)
  else if m0 == 3 || m0 == 5 || m0 == 8 || m0 == 10 then 30
  else 31

/-- The host `Date` value `new Date(year, month, day)` for the day numbers
used by this code base (every call site passes `1 ≤ day ≤` length of the
normalized month, so only the month component needs normalizing).  JS
normalizes an out-of-range month by floor-dividing it into the year. -/
structure JSDate where
  year : Int
  month : Int
  day : Int
deriving DecidableEq

/-- Source `new Date(y, m, d)`: month normalized into the year by floor division. -/
def mkDate (y m d : Int) : JSDate :=
  { year := y + jsFloorDiv m 12, month := m % 12, day := d }

/-- Source `getDaysInMonth(year, month)` from `dateUtils`:
`new Date(year, month + 1, 0).getDate()`, i.e. the number of days of the
(normalized) month `(year, month)`. -/
def getDaysInMonth (year month : Int) : Int :=
  monthLength (year + jsFloorDiv month 12) (month % 12)

/-- Days since 1970-01-01 of the (already normalized) civil date
`(y, m1, d)` with `m1` 1-based; standard civil-from-days arithmetic, which
is what the host `Date` implements. -/
def daysFromCivil (y m1 d : Int) : Int :=
  let y2 := if m1 ≤ 2 then y - 1 else y
  let era := Int.fdiv y2 400
  let yoe := y2 - era * 400
  let mp := (m1 + 9) % 12
  let doy := Int.fdiv (153 * mp + 2) 5 + d - 1
  let doe := yoe * 365 + Int.fdiv yoe 4 - Int.fdiv yoe 100 + doy
  era * 146097 + doe - 719468

/-- Source `Date.prototype.getDay()`: weekday, 0 = Sunday .. 6 = Saturday.
1970-01-01 was a Thursday (4). -/
def dateGetDay (dt : JSDate) : Int :=
  (daysFromCivil dt.year (dt.month + 1) dt.day + 4) % 7

/-- Source `getFirstDayOfWeek(year, month)` from `dateUtils`:
`new Date(year, month, 1).getDay()`. -/
def getFirstDayOfWeek (year month : Int) : Int :=
  dateGetDay (mkDate year month 1)

/-- Source `String(n).padStart(2, "0")` for an integer `n`. -/
def pad2 (n : Int) : String :=
  let s := toString n
  if s.length < 2 then ("0") ++ s else s

/-- Source `formatDateToISO(date)` from `dateUtils`: `YYYY-MM-DD` with the
month reported 1-based and month/day padded to two digits. -/
def formatDateToISO (dt : JSDate) : String :=
  toString dt.year ++ ("-") ++ pad2 (dt.month + 1) ++ ("-") ++ pad2 dt.day

/-- Source `JournalEntry` from `src/types/journal.ts`. -/
structure JournalEntry where
  id : String
  date : String
  imgUrl : String
  rating : Int
  categories : List String
  description : String
deriving DecidableEq

/-- Source `EntriesByDate`: a JS object keyed by ISO date string; modelled as an
association list in key-insertion order (JS objects preserve string-key
insertion order, and the keys of such a list are unique by construction). -/
abbrev EntriesByDate : Type := List (String × List JournalEntry)

/-- Source `entries[isoDate] || []`. -/
def lookupEntries (e : EntriesByDate) (k : String) : List JournalEntry :=
  (List.lookup k e).getD []

/-- Source `Day` from `src/types/calendar.ts`. -/
structure Day where
  date : JSDate
  isCurrentMonth : Bool
  journalEntries : List JournalEntry
deriving DecidableEq

/-- Source `generateMonthDays(year, month, entriesByDate)` from `dateUtils`
(the two copies of the file implement it identically): `firstDay` trailing
days of the previous month, all days of the target month, then days of the
next month up to a total of 42. -/
def generateMonthDays (year month : Int) (e : EntriesByDate) : List Day :=
  let firstDay := getFirstDayOfWeek year month
  let daysInMonth := getDaysInMonth year month
  let daysInPrevMonth := getDaysInMonth year (month - 1)
  let prevDays := (List.range firstDay.toNat).map (fun (j : Nat) =>
    let i := firstDay - 1 - (j : Int)
    let dayNum := daysInPrevMonth - i
    let date := mkDate year (month - 1) dayNum
    { date := date, isCurrentMonth := false,
      journalEntries := lookupEntries e (formatDateToISO date) : Day })
  let curDays := (List.range daysInMonth.toNat).map (fun (j : Nat) =>
    let date := mkDate year month ((j : Int) + 1)
    { date := date, isCurrentMonth := true,
      journalEntries := lookupEntries e (formatDateToISO date) : Day })
  let remaining := 42 - (firstDay + daysInMonth)
  let nextDays := (List.range remaining.toNat).map (fun (j : Nat) =>
    let date := mkDate year (month + 1) ((j : Int) + 1)
    { date := date, isCurrentMonth := false,
      journalEntries := lookupEntries e (formatDateToISO date) : Day })
  prevDays ++ curDays ++ nextDays

/-- The first loop of `generateMonthDays` (previous month's trailing days),
named as a standalone segment; `generateMonthDays` is definitionally the
concatenation of the three segments. -/
def prevMonthDays (year month : Int) (e : EntriesByDate) : List Day :=
  let firstDay := getFirstDayOfWeek year month
  let daysInPrevMonth := getDaysInMonth year (month - 1)
  (List.range firstDay.toNat).map (fun (j : Nat) =>
    let i := firstDay - 1 - (j : Int)
    let dayNum := daysInPrevMonth - i
    let date := mkDate year (month - 1) dayNum
    { date := date, isCurrentMonth := false,
      journalEntries := lookupEntries e (formatDateToISO date) : Day })

/-- The second loop of `generateMonthDays` (the target month's days). -/
def curMonthDays (year month : Int) (e : EntriesByDate) : List Day :=
  (List.range (getDaysInMonth year month).toNat).map (fun (j : Nat) =>
    let date := mkDate year month ((j : Int) + 1)
    { date := date, isCurrentMonth := true,
      journalEntries := lookupEntries e (formatDateToISO date) : Day })

/-- The third loop of `generateMonthDays` (next month's leading days). -/
def nextMonthDays (year month : Int) (e : EntriesByDate) : List Day :=
  (List.range (42 - (getFirstDayOfWeek year month + getDaysInMonth year month)).toNat).map
    (fun (j : Nat) =>
      let date := mkDate year (month + 1) ((j : Int) + 1)
      { date := date, isCurrentMonth := false,
        journalEntries := lookupEntries e (formatDateToISO date) : Day })

/-- Source `Month` from `src/types/calendar.ts`. -/
structure Month where
  year : Int
  month : Int
  days : List Day
deriving DecidableEq

/-- The `(year, month)` dedup key of a month record (the source uses the
string `year ++ "-" ++ month`, which is injective on integer pairs, so the
pair itself is used as the key here). -/
def monthPair (m : Month) : Int × Int :=
  (m.year, m.month)

/-- The linear calendar position `year * 12 + month` of a month record. -/
def monthKey (m : Month) : Int :=
  m.year * 12 + m.month

/-- Source `generateMonths(startYear, startMonth, count, entriesByDate)` — first
copy of `dateUtils` in the repository (the copy imported by
`useInfiniteScroll`): per step `i`,
`year = startYear + Math.floor((startMonth + i) / 12)` and
`month = (startMonth + i) % 12` with the JS `%` operator. -/
def generateMonths (startYear startMonth : Int) (count : Nat)
    (e : EntriesByDate) : List Month :=
  (List.range count).map (fun (i : Nat) =>
    let totalMonths := startMonth + (i : Int)
    let year := startYear + jsFloorDiv totalMonths 12
    let month := jsRem totalMonths 12
    { year := year, month := month, days := generateMonthDays year month e })

/-- Source `generateMonths` — second copy of `dateUtils` in the repository: an
explicit branch for `month < 0` subtracts `Math.ceil(|month| / 12)` years
and sets `month = 12 + (month % 12)` with the JS `%` operator. -/
def generateMonthsV2 (startYear startMonth : Int) (count : Nat)
    (e : EntriesByDate) : List Month :=
  (List.range count).map (fun (i : Nat) =>
    let m0 := startMonth + (i : Int)
    let p :=
      if m0 < 0 then
        (startYear - (jsCeilDivNat m0.natAbs 12 : Int), 12 + jsRem m0 12)
      else if 12 ≤ m0 then
        (startYear + jsFloorDiv m0 12, jsRem m0 12)
      else
        (startYear, m0)
    { year := p.1, month := p.2, days := generateMonthDays p.1 p.2 e })

/-- Source `getPreviousMonth(year, month)` from `dateUtils`. -/
def getPreviousMonth (year month : Int) : Int × Int :=
  if month == 0 then (year - 1, 11) else (year, month - 1)

/-- Source `getNextMonth(year, month)` from `dateUtils`. -/
def getNextMonth (year month : Int) : Int × Int :=
  if month == 11 then (year + 1, 0) else (year, month + 1)

/-!
## Month window engine (`src/hooks/useInfiniteScroll.ts`)

The hook state is `months`, `currentVisibleMonth`, `isLoading` and
`isScrollLocked`.  Each operation below is an operation of the hook run to
completion (its synchronous guard together with every timer callback it
schedules); the event loop is single threaded, so a completed operation is
an atomic state transformation.  The separate call/run split needed to talk
about the pending window is modelled afterwards (`PendingState`).

The source deduplicates by the string key `year + "-" + month`; a decimal
integer string contains a minus sign only at position 0, so that string is
injective on `(year, month)` pairs and the pair is used as the key here.
-/

/-- The state of `useInfiniteScroll`. -/
structure EngineState where
  months : List Month
  currentVisibleMonth : Option (Int × Int)
  isLoading : Bool
  isScrollLocked : Bool
deriving DecidableEq

/-- The recursion of `removeDuplicateMonths`: `filter` with a mutable
`seen` set of keys, keeping the first record of each key. -/
def removeDuplicateMonthsGo (seen : List (Int × Int)) :
    List Month → List Month
  | [] => []
  | m :: rest =>
    if monthPair m ∈ seen then removeDuplicateMonthsGo seen rest
    else m :: removeDuplicateMonthsGo (monthPair m :: seen) rest

/-- Source `removeDuplicateMonths` from `useInfiniteScroll`. -/
def removeDuplicateMonths (ms : List Month) : List Month :=
  removeDuplicateMonthsGo [] ms

/-- The comparator of the initialisation effect marks exactly the records
equal to the initial `(year, month)`. -/
def isInitialMonth (iy im : Int) (m : Month) : Bool :=
  m.year == iy && m.month == im

/-- The initialisation effect sorts with the comparator
`(a, b) => a initial ? -1 : b initial ? 1 : 0`.  `Array.prototype.sort` is
stable, and a stable sort under this comparator moves the records equal to
the initial month to the front and keeps every other record in its original
relative order, which is exactly this function. -/
def sortInitialFirst (iy im : Int) (ms : List Month) : List Month :=
  ms.filter (isInitialMonth iy im) ++
    ms.filter (fun m => !(isInitialMonth iy im m))

/-- The mount effect of `useInfiniteScroll` run to completion: it first sets
`months` to the single initial month and `currentVisibleMonth` to the
initial month, then after 200ms replaces `months` with the deduplicated,
initial-month-first window `generateMonths(iy, im - bufferMonths,
bufferMonths * 2 + 1)`. -/
def initializeOp (e : EntriesByDate) (iy im : Int) (bufferMonths : Nat)
    (s : EngineState) : EngineState :=
  { s with
    months := sortInitialFirst iy im (removeDuplicateMonths
      (generateMonths iy (im - (bufferMonths : Int)) (bufferMonths * 2 + 1) e)),
    currentVisibleMonth := some (iy, im) }

/-- Key-set membership test used by both expansion paths:
`existingKeys.has(key(m))`. -/
def hasExistingKey (prevMonths : List Month) (m : Month) : Bool :=
  prevMonths.any (fun p => monthPair p == monthPair m)

/-- The timeout body of `loadMoreMonthsEnd`: append the next two generated
months, filtered against the existing keys; no-op when the window is
empty. -/
def expandEndBody (e : EntriesByDate) (s : EngineState) : EngineState :=
  match s.months.getLast? with
  | none => s
  | some lastMonth =>
    let nxt := getNextMonth lastMonth.year lastMonth.month
    let newMonths := generateMonths nxt.1 nxt.2 2 e
    let uniqueNewMonths := newMonths.filter (fun m => !(hasExistingKey s.months m))
    { s with months := s.months ++ uniqueNewMonths }

/-- Source `loadMoreMonthsEnd` run to completion: dropped while `isLoading` or
`isScrollLocked`; otherwise both flags are raised, the batch is appended
and both flags are cleared again by the scheduled timers. -/
def expandEnd (e : EntriesByDate) (s : EngineState) : EngineState :=
  if s.isLoading || s.isScrollLocked then s else expandEndBody e s

/-- The timeout body of `loadMoreMonthsStart`: prepend the two months
generated from the month before the first entry, filtered against the
existing keys; no-op when the window is empty. -/
def expandStartBody (e : EntriesByDate) (s : EngineState) : EngineState :=
  match s.months.head? with
  | none => s
  | some firstMonth =>
    let prv := getPreviousMonth firstMonth.year firstMonth.month
    let newMonths := generateMonths prv.1 prv.2 2 e
    let uniqueNewMonths := newMonths.filter (fun m => !(hasExistingKey s.months m))
    { s with months := uniqueNewMonths ++ s.months }

/-- Source `loadMoreMonthsStart` run to completion. -/
def expandStart (e : EntriesByDate) (s : EngineState) : EngineState :=
  if s.isLoading || s.isScrollLocked then s else expandStartBody e s

/-- Source `jumpToYear` run to completion: dropped while `isLoading`; otherwise the
window is replaced by the deduplicated window centered on the target and
`currentVisibleMonth` is set to the target. -/
def jumpTo (e : EntriesByDate) (bufferMonths : Nat) (targetYear targetMonth : Int)
    (s : EngineState) : EngineState :=
  if s.isLoading then s
  else
    { s with
      months := removeDuplicateMonths
        (generateMonths targetYear (targetMonth - (bufferMonths : Int))
          (bufferMonths * 2 + 1) e),
      currentVisibleMonth := some (targetYear, targetMonth) }

/-- The empty pre-mount state of the hook. -/
def emptyEngine : EngineState :=
  { months := [], currentVisibleMonth := none,
    isLoading := false, isScrollLocked := false }

/-- Engine states reachable by finite sequences of completed operations
starting from the empty window. -/
inductive Reachable (e : EntriesByDate) : EngineState → Prop where
  | empty : Reachable e emptyEngine
  | initStep : ∀ s iy im b, Reachable e s → Reachable e (initializeOp e iy im b s)
  | expandEndStep : ∀ s, Reachable e s → Reachable e (expandEnd e s)
  | expandStartStep : ∀ s, Reachable e s → Reachable e (expandStart e s)
  | jumpStep : ∀ s b ty tm, Reachable e s → Reachable e (jumpTo e b ty tm s)

/-!
### Call/run phase model of `loadMoreMonthsEnd`

`loadMoreMonthsEnd` consists of a synchronous call phase — the
`isLoading || isScrollLocked` guard, then raising both flags and scheduling
the timeout — and the timeout body that appends the batch and clears
`isLoading` (a second timer clears the scroll lock).  The pending window is
the span between the call and its timers; `pendingEndBatches` counts the
scheduled, not yet executed, timeout callbacks.
-/

/-- Hook state together with the number of scheduled `loadMoreMonthsEnd`
timeout callbacks. -/
structure PendingState where
  months : List Month
  currentVisibleMonth : Option (Int × Int)
  isLoading : Bool
  isScrollLocked : Bool
  pendingEndBatches : Nat
deriving DecidableEq

/-- The synchronous call phase of `loadMoreMonthsEnd`: dropped while
`isLoading` or `isScrollLocked`, otherwise raises both flags and schedules
one batch. -/
def loadMoreMonthsEndCall (s : PendingState) : PendingState :=
  if s.isLoading || s.isScrollLocked then s
  else
    { s with
      isLoading := true, isScrollLocked := true,
      pendingEndBatches := s.pendingEndBatches + 1 }

/-- The timeout body of `loadMoreMonthsEnd` in the phase model: appends the
filtered batch and clears `isLoading` (the scroll lock is cleared by the
separate 100ms timer, modelled by `scrollUnlock`). -/
def loadMoreMonthsEndRun (e : EntriesByDate) (s : PendingState) : PendingState :=
  let months2 :=
    match s.months.getLast? with
    | none => s.months
    | some lastMonth =>
      let nxt := getNextMonth lastMonth.year lastMonth.month
      let newMonths := generateMonths nxt.1 nxt.2 2 e
      s.months ++ newMonths.filter (fun m =>
        !(s.months.any (fun p => monthPair p == monthPair m)))
  { s with
    months := months2, isLoading := false,
    pendingEndBatches := s.pendingEndBatches - 1 }

/-- The 100ms unlock timer: `setIsScrollLocked(false)`. -/
def scrollUnlock (s : PendingState) : PendingState :=
  { s with isScrollLocked := false }

/-!
## Visible month detection (`detectVisibleMonth`)

The rendered month elements are modelled by their vertical centers
(`rect.top + rect.height / 2`, a pixel coordinate, modelled by `ℚ`) and the
`(year, month)` parsed from their `data-month` attribute, in DOM order.
`minDistance` starts at `Infinity`, modelled by `none`.
-/

/-- A rendered `[data-month]` element: vertical center and parsed key. -/
structure MonthElem where
  center : ℚ
  year : Int
  month : Int
deriving DecidableEq

/-- The `forEach` scan of `detectVisibleMonth`: the accumulator is
`(minDistance, closestYear, closestMonth)` starting at
`(Infinity, 0, 0)`; an element strictly closer than the minimum replaces
it, so the first element wins ties. -/
def closestScan (containerCenter : ℚ) (els : List MonthElem) :
    Option ℚ × Int × Int :=
  els.foldl (fun acc el =>
    let distance := |el.center - containerCenter|
    let closer : Bool :=
      match acc.1 with
      | none => true
      | some minDistance => decide (distance < minDistance)
    if closer then (some distance, el.year, el.month) else acc)
    (none, 0, 0)

/-- Source `detectVisibleMonth` as a function from the measured layout and the
current visible month to the next visible month: the update is applied only
when `closestYear > 0 && closestMonth > 0` and the selected pair differs
from the current one. -/
def detectVisibleMonth (containerCenter : ℚ) (els : List MonthElem)
    (cur : Option (Int × Int)) : Option (Int × Int) :=
  let scan := closestScan containerCenter els
  let closestYear := scan.2.1
  let closestMonth := scan.2.2
  if 0 < closestYear && 0 < closestMonth then
    match cur with
    | none => some (closestYear, closestMonth)
    | some c =>
      if closestYear == c.1 && closestMonth == c.2 then cur
      else some (closestYear, closestMonth)
  else cur

/-!
## Dataset loading (`src/utils/datasetLoader.ts`)

`fetch` and `response.json()` are host effects; their outcome is an input
of the model: `none` stands for a rejected fetch, a non-OK response or a
JSON parse failure (each of which throws and is caught), `some rawData` for
a successfully parsed array.  A `TypeError` thrown by `transformRawEntry`
on a date string with fewer than two `/` separators is modelled by
`Option`; the `try`/`catch` of `loadJournalEntries` turns it into `[]`.
-/

/-- Source `String.prototype.split(sep)` for a one-character separator (the source
only ever splits on `/` and `-`), on the character list of the string. -/
def splitCharsGo (sep : Char) : List Char → List (List Char)
  | [] => [[]]
  | c :: rest =>
    let r := splitCharsGo sep rest
    if c == sep then [] :: r
    else
      match r with
      | [] => [[c]]
      | h :: t => (c :: h) :: t

/-- Source `s.split(sep)` for a one-character separator. -/
def splitOnChar (sep : Char) (s : String) : List String :=
  (splitCharsGo sep s.data).map (fun l => String.mk l)

/-- Source `s.replace(/c/g, "")`: remove every occurrence of the character. -/
def stripChar (c : Char) (s : String) : String :=
  String.mk (s.data.filter (fun x => !(x == c)))

/-- Decimal digit list to number, `none` on a non-digit (the JS `NaN`). -/
def parseNatChars : List Char → Option Nat
  | [] => some 0
  | c :: rest =>
    if c.isDigit then
      (parseNatChars rest).map (fun n => (c.toNat - 48) * 10 ^ rest.length + n)
    else none

/-- JS `Number(s)` restricted to optionally signed decimal integers, `none`
for anything that parses to `NaN`. -/
def parseIntStr (s : String) : Option Int :=
  match s.data with
  | [] => none
  | c :: rest =>
    if c == ('-') then (parseNatChars rest).map (fun n => -(n : Int))
    else (parseNatChars s.data).map (fun n => (n : Int))

/-- Source `RawJournalEntry` from `datasetLoader.ts`. -/
structure RawJournalEntry where
  imgUrl : String
  rating : Int
  categories : List String
  date : String
  description : String
deriving DecidableEq

/-- Source `generateEntryId`: `entry_` + date with `/` removed + `_` + index. -/
def generateEntryId (entry : RawJournalEntry) (index : Nat) : String :=
  ("entry_") ++ stripChar ('/') entry.date ++ ("_") ++ toString index

/-- Source `padStart(2, "0")` on a string. -/
def padStart2 (s : String) : String :=
  if s.length == 0 then ("00")
  else if s.length == 1 then ("0") ++ s
  else s

/-- Source `parseDDMMYYYYToISO`: destructures `dateStr.split("/")` into
`[day, month, year]`.  With fewer than two components `month.padStart`
throws (`none`); with exactly two the year interpolates as the string
`undefined`. -/
def parseDDMMYYYYToISO (dateStr : String) : Option String :=
  match splitOnChar ('/') dateStr with
  | d :: m :: rest =>
    let y := match rest with | [] => ("undefined") | yv :: _ => yv
    some (y ++ ("-") ++ padStart2 m ++ ("-") ++ padStart2 d)
  | _ => none

/-- Source `transformRawEntry`. -/
def transformRawEntry (raw : RawJournalEntry) (index : Nat) : Option JournalEntry :=
  (parseDDMMYYYYToISO raw.date).map (fun iso =>
    { id := generateEntryId raw index, date := iso, imgUrl := raw.imgUrl,
      rating := raw.rating, categories := raw.categories,
      description := raw.description })

/-- Source `new Date(isoString).getTime()` up to the strictly monotone rescaling
from days to milliseconds: the day number of a well-formed `YYYY-MM-DD`
string; unparseable strings (JS `NaN`) collapse to `0`, which only affects
the newest-first ordering of `loadJournalEntries`, an ordering no claim
mentions. -/
def isoTimeValue (s : String) : Int :=
  match splitOnChar ('-') s with
  | y :: m :: d :: _ =>
    match parseIntStr y, parseIntStr m, parseIntStr d with
    | some yv, some mv, some dv => daysFromCivil yv mv dv
    | _, _, _ => 0
  | _ => 0

/-- Collects a list of `Option` results; `none` when any element is `none`
(the thrown exception propagating out of `map`). -/
def allSome {α : Type} : List (Option α) → Option (List α)
  | [] => some []
  | none :: _ => none
  | some a :: rest => (allSome rest).map (fun l => a :: l)

/-- Source `loadJournalEntries`: transforms every raw entry (index-aware `map`)
and sorts newest-first; any thrown error is caught and yields `[]`. -/
def loadJournalEntries (jsonData : List RawJournalEntry) : List JournalEntry :=
  match allSome (jsonData.enum.map (fun p => transformRawEntry p.2 p.1)) with
  | none => []
  | some entries =>
    List.insertionSort (fun a b => isoTimeValue b.date ≤ isoTimeValue a.date) entries

/-- One step of the grouping loop of `groupEntriesByDate`: push the entry
onto its date group, creating the group at the end on first sight (JS
object keys keep insertion order). -/
def addToGroup (g : EntriesByDate) (entry : JournalEntry) : EntriesByDate :=
  match g with
  | [] => [(entry.date, [entry])]
  | (k, l) :: rest =>
    if k == entry.date then (k, l ++ [entry]) :: rest
    else (k, l) :: addToGroup rest entry

/-- Source `groupEntriesByDate`: group by `entry.date`, then sort each group by
rating, highest first (`(a, b) => b.rating - a.rating`, stable). -/
def groupEntriesByDate (entries : List JournalEntry) : EntriesByDate :=
  let grouped := entries.foldl addToGroup ([] : EntriesByDate)
  grouped.map (fun p =>
    (p.1, List.insertionSort (fun a b => b.rating ≤ a.rating) p.2))

/-- Source `loadJournalData`, over the two source shapes: `Sum.inl` is the
URL-string case carrying the fetch/parse outcome, `Sum.inr` the raw-array
case.  Every thrown error is caught and yields the empty mapping. -/
def loadJournalData
    (dataSource : Sum (Option (List RawJournalEntry)) (List RawJournalEntry)) :
    EntriesByDate :=
  match dataSource with
  | Sum.inl none => []
  | Sum.inl (some rawData) => groupEntriesByDate (loadJournalEntries rawData)
  | Sum.inr rawData => groupEntriesByDate (loadJournalEntries rawData)

/-!
## `SwipeNavigator` (`src/components/SwipeNavigator.tsx`)

The component state relevant to navigation is `touchStart`, `touchEnd`
(pixel x-coordinates or `null`), `isAnimating` and the gesture start time.
Each input path is a handler producing the next state and the index passed
to `onNavigate`, when any.  The `!touchStart || !touchEnd` guard uses JS
truthiness, under which the coordinate `0` counts as absent.
-/

/-- Navigation-relevant state of `SwipeNavigator`. -/
structure SwipeState where
  touchStart : Option ℚ
  touchEnd : Option ℚ
  isAnimating : Bool
  gestureStartTime : ℚ
deriving DecidableEq

/-- The keys handled by `handleKeyDown`. -/
inductive SwipeKey where
  | arrowLeft
  | keyH
  | arrowRight
  | keyL
  | homeKey
  | endKey
  | otherKey
deriving DecidableEq

/-- JS truthiness test of an optional coordinate: `null` and `0` are
falsy. -/
def jsFalsyCoord : Option ℚ → Bool
  | none => true
  | some v => v == 0

/-- Source `handleNavigate`: dropped while animating or when the target equals the
current index; otherwise starts the 300ms animation and invokes
`onNavigate(newIndex)`. -/
def handleNavigate (currentIndex : Int) (s : SwipeState) (newIndex : Int) :
    SwipeState × Option Int :=
  if s.isAnimating || newIndex == currentIndex then (s, none)
  else ({ s with isAnimating := true }, some newIndex)

/-- Source `handleKeyDown`. -/
def handleKeyDown (currentIndex total : Int) (s : SwipeState) (k : SwipeKey) :
    SwipeState × Option Int :=
  if s.isAnimating then (s, none)
  else
    match k with
    | .arrowLeft | .keyH =>
      if 0 < currentIndex then handleNavigate currentIndex s (currentIndex - 1)
      else (s, none)
    | .arrowRight | .keyL =>
      if currentIndex < total - 1 then handleNavigate currentIndex s (currentIndex + 1)
      else (s, none)
    | .homeKey => handleNavigate currentIndex s 0
    | .endKey => handleNavigate currentIndex s (total - 1)
    | .otherKey => (s, none)

/-- Source `handleTouchEnd` run to completion, including the 150ms deferred
`handleNavigate`: swipe distance and velocity thresholds, with the
edge guards `currentIndex > 0` / `currentIndex < total - 1`. -/
def handleTouchEnd (currentIndex total : Int)
    (minSwipeDistance minSwipeVelocity : ℚ) (s : SwipeState) (now : ℚ) :
    SwipeState × Option Int :=
  if jsFalsyCoord s.touchStart || jsFalsyCoord s.touchEnd || s.isAnimating then
    (s, none)
  else
    let ts := s.touchStart.getD 0
    let te := s.touchEnd.getD 0
    let distance := te - ts
    let dt := max 1 (now - s.gestureStartTime)
    let velocity := distance / dt
    let shouldGoPrev :=
      (decide (minSwipeDistance < distance) || decide (minSwipeVelocity < velocity))
        && decide (0 < currentIndex)
    let shouldGoNext :=
      (decide (distance < -minSwipeDistance) || decide (velocity < -minSwipeVelocity))
        && decide (currentIndex < total - 1)
    let s1 := { s with touchStart := none, touchEnd := none }
    if shouldGoNext then handleNavigate currentIndex s1 (currentIndex + 1)
    else if shouldGoPrev then handleNavigate currentIndex s1 (currentIndex - 1)
    else (s1, none)

/-- Source `goToPrevious` (the previous button). -/
def goToPrevious (currentIndex : Int) (s : SwipeState) : SwipeState × Option Int :=
  if 0 < currentIndex then handleNavigate currentIndex s (currentIndex - 1)
  else (s, none)

/-- Source `goToNext` (the next button). -/
def goToNext (currentIndex total : Int) (s : SwipeState) : SwipeState × Option Int :=
  if currentIndex < total - 1 then handleNavigate currentIndex s (currentIndex + 1)
  else (s, none)

/-- The navigation input paths of `SwipeNavigator`. -/
inductive SwipeEvent where
  | keyDown (k : SwipeKey)
  | touchRelease (now : ℚ)
  | prevButton
  | nextButton
deriving DecidableEq

/-- One input event of `SwipeNavigator`. -/
def swipeStep (currentIndex total : Int) (minSwipeDistance minSwipeVelocity : ℚ)
    (s : SwipeState) : SwipeEvent → SwipeState × Option Int
  | .keyDown k => handleKeyDown currentIndex total s k
  | .touchRelease now =>
    handleTouchEnd currentIndex total minSwipeDistance minSwipeVelocity s now
  | .prevButton => goToPrevious currentIndex s
  | .nextButton => goToNext currentIndex total s

/-!
## Arithmetic facts about the JS remainder and floor division
-/

theorem jsRem_bounds (t : Int) : -12 < jsRem t 12 ∧ jsRem t 12 < 12 := by
  unfold jsRem
  split <;> omega

theorem jsRem_nonneg_eq (t : Int) (h : 0 ≤ t) : jsRem t 12 = t % 12 := by
  unfold jsRem
  split <;> omega

theorem js_decomp (t : Int) :
    12 * jsFloorDiv t 12 + jsRem t 12 = t ∨
      (12 * jsFloorDiv t 12 + jsRem t 12 = t - 12 ∧ jsRem t 12 < 0 ∧ t < 0 ∧ ¬(12 ∣ t)) := by
  unfold jsFloorDiv jsRem
  rw [Int.fdiv_eq_ediv _ (by norm_num)]
  split <;> omega

theorem jsRem_succ_ne (t : Int) : jsRem t 12 ≠ jsRem (t + 1) 12 := by
  unfold jsRem
  split <;> split <;> omega

/-!
## Facts about `generateMonths` (first copy)
-/

theorem generateMonths_map_pair (sy sm : Int) (c : Nat) (e : EntriesByDate) :
    (generateMonths sy sm c e).map monthPair =
      (List.range c).map (fun (i : Nat) =>
        (sy + jsFloorDiv (sm + (i : Int)) 12, jsRem (sm + (i : Int)) 12)) := by
  unfold generateMonths monthPair
  simp [List.map_map, Function.comp]

theorem mem_generateMonths_month_bounds (sy sm : Int) (c : Nat) (e : EntriesByDate) :
    ∀ m ∈ generateMonths sy sm c e, -12 < m.month ∧ m.month < 12 := by
  intro m hm
  unfold generateMonths at hm
  obtain ⟨i, _, rfl⟩ := List.mem_map.mp hm
  exact jsRem_bounds _

theorem generateMonths_two_map_pair (sy sm : Int) (e : EntriesByDate) :
    (generateMonths sy sm 2 e).map monthPair =
      [(sy + jsFloorDiv sm 12, jsRem sm 12),
       (sy + jsFloorDiv (sm + 1) 12, jsRem (sm + 1) 12)] := by
  rw [generateMonths_map_pair]
  have h2 : List.range 2 = [0, 1] := rfl
  rw [h2]
  simp

theorem generateMonths_two_nodup (sy sm : Int) (e : EntriesByDate) :
    ((generateMonths sy sm 2 e).map monthPair).Nodup := by
  rw [generateMonths_two_map_pair]
  simp only [List.nodup_cons, List.mem_singleton, List.not_mem_nil, not_false_iff,
    List.nodup_nil, and_true]
  intro h
  exact jsRem_succ_ne sm (congrArg Prod.snd h)

/-!
## Facts about deduplication and the window mutations
-/

theorem removeDuplicateMonthsGo_spec (ms : List Month) : ∀ (seen : List (Int × Int)),
    ((removeDuplicateMonthsGo seen ms).map monthPair).Nodup ∧
      (∀ p ∈ (removeDuplicateMonthsGo seen ms).map monthPair, p ∉ seen) ∧
      (∀ m ∈ removeDuplicateMonthsGo seen ms, m ∈ ms) := by
  induction ms with
  | nil =>
    intro seen
    simp [removeDuplicateMonthsGo]
  | cons m rest ih =>
    intro seen
    unfold removeDuplicateMonthsGo
    by_cases h : monthPair m ∈ seen
    · simp only [if_pos h]
      obtain ⟨h1, h2, h3⟩ := ih seen
      exact ⟨h1, h2, fun x hx => List.mem_cons_of_mem _ (h3 x hx)⟩
    · simp only [if_neg h]
      obtain ⟨h1, h2, h3⟩ := ih (monthPair m :: seen)
      refine ⟨?_, ?_, ?_⟩
      · simp only [List.map_cons, List.nodup_cons]
        exact ⟨fun hc => (h2 _ hc) (List.mem_cons_self _ _), h1⟩
      · intro p hp
        simp only [List.map_cons, List.mem_cons] at hp
        rcases hp with rfl | hp
        · exact h
        · exact fun hs => (h2 p hp) (List.mem_cons_of_mem _ hs)
      · intro x hx
        simp only [List.mem_cons] at hx ⊢
        rcases hx with rfl | hx
        · exact Or.inl rfl
        · exact Or.inr (h3 x hx)

theorem removeDuplicateMonths_nodup (ms : List Month) :
    ((removeDuplicateMonths ms).map monthPair).Nodup :=
  (removeDuplicateMonthsGo_spec ms []).1

theorem removeDuplicateMonths_subset (ms : List Month) :
    ∀ m ∈ removeDuplicateMonths ms, m ∈ ms :=
  (removeDuplicateMonthsGo_spec ms []).2.2

theorem sortInitialFirst_perm (iy im : Int) (ms : List Month) :
    (sortInitialFirst iy im ms).Perm ms :=
  List.filter_append_perm _ ms

theorem hasExistingKey_iff (l : List Month) (m : Month) :
    hasExistingKey l m = true ↔ monthPair m ∈ l.map monthPair := by
  unfold hasExistingKey
  simp only [List.any_eq_true, beq_iff_eq, List.mem_map]

theorem filtered_batch_nodup (l batch : List Month)
    (hbatch : (batch.map monthPair).Nodup) :
    ((batch.filter (fun m => !(hasExistingKey l m))).map monthPair).Nodup :=
  hbatch.sublist ((List.filter_sublist batch).map monthPair)

theorem filtered_batch_disjoint (l batch : List Month) :
    ∀ m ∈ batch.filter (fun m => !(hasExistingKey l m)),
      monthPair m ∉ l.map monthPair := by
  intro m hm
  have hf := List.of_mem_filter hm
  simp only [Bool.not_eq_true'] at hf
  intro hmem
  rw [← hasExistingKey_iff l m] at hmem
  rw [hf] at hmem
  exact Bool.false_ne_true hmem

theorem nodup_append_batch (l batch : List Month)
    (hl : (l.map monthPair).Nodup)
    (hbatch : (batch.map monthPair).Nodup) :
    (((l ++ batch.filter (fun m => !(hasExistingKey l m))).map monthPair).Nodup ∧
      (((batch.filter (fun m => !(hasExistingKey l m))) ++ l).map monthPair).Nodup) := by
  set u := batch.filter (fun m => !(hasExistingKey l m)) with hu
  have hun : (u.map monthPair).Nodup := filtered_batch_nodup l batch hbatch
  have hdisj : (u.map monthPair).Disjoint (l.map monthPair) := by
    intro p hpu hpl
    obtain ⟨m, hm, rfl⟩ := List.mem_map.mp hpu
    exact filtered_batch_disjoint l batch m hm hpl
  constructor
  · rw [List.map_append, List.nodup_append]
    exact ⟨hl, hun, fun p hpl hpu => hdisj hpu hpl⟩
  · rw [List.map_append, List.nodup_append]
    exact ⟨hun, hl, hdisj⟩

/-!
## Invariants of the reachable engine states
-/

theorem reachable_flags {e : EntriesByDate} {s : EngineState} (h : Reachable e s) :
    s.isLoading = false ∧ s.isScrollLocked = false := by
  induction h with
  | empty => exact ⟨rfl, rfl⟩
  | initStep s iy im b _ ih => exact ih
  | expandEndStep s _ ih =>
    unfold expandEnd expandEndBody
    split
    · exact ih
    · rcases hgl : s.months.getLast? with _ | lastMonth <;> simp [hgl, ih]
  | expandStartStep s _ ih =>
    unfold expandStart expandStartBody
    split
    · exact ih
    · rcases hhd : s.months.head? with _ | firstMonth <;> simp [hhd, ih]
  | jumpStep s b ty tm _ ih =>
    unfold jumpTo
    split
    · exact ih
    · exact ih

theorem reachable_nodup {e : EntriesByDate} {s : EngineState} (h : Reachable e s) :
    ((s.months.map monthPair)).Nodup := by
  induction h with
  | empty => simp [emptyEngine]
  | initStep s iy im b _ _ =>
    have hperm := (sortInitialFirst_perm iy im (removeDuplicateMonths
      (generateMonths iy (im - (b : Int)) (b * 2 + 1) e))).map monthPair
    exact hperm.nodup_iff.mpr (removeDuplicateMonths_nodup _)
  | expandEndStep s _ ih =>
    unfold expandEnd expandEndBody
    split
    · exact ih
    · rcases hgl : s.months.getLast? with _ | lastMonth
      · simpa using ih
      · simpa using (nodup_append_batch s.months _ ih
          (generateMonths_two_nodup _ _ e)).1
  | expandStartStep s _ ih =>
    unfold expandStart expandStartBody
    split
    · exact ih
    · rcases hhd : s.months.head? with _ | firstMonth
      · simpa using ih
      · simpa using (nodup_append_batch s.months _ ih
          (generateMonths_two_nodup _ _ e)).2
  | jumpStep s b ty tm _ ih =>
    unfold jumpTo
    split
    · exact ih
    · exact removeDuplicateMonths_nodup _

theorem reachable_month_bounds {e : EntriesByDate} {s : EngineState} (h : Reachable e s) :
    ∀ m ∈ s.months, -12 < m.month ∧ m.month < 12 := by
  induction h with
  | empty => simp [emptyEngine]
  | initStep s iy im b _ _ =>
    intro m hm
    have hm2 := (sortInitialFirst_perm iy im _).mem_iff.mp hm
    exact mem_generateMonths_month_bounds _ _ _ _ m
      (removeDuplicateMonths_subset _ m hm2)
  | expandEndStep s _ ih =>
    unfold expandEnd expandEndBody
    split
    · exact ih
    · rcases hgl : s.months.getLast? with _ | lastMonth
      · simpa using ih
      · intro m hm
        simp only [List.mem_append] at hm
        rcases hm with hm | hm
        · exact ih m hm
        · exact mem_generateMonths_month_bounds _ _ _ _ m (List.mem_of_mem_filter hm)
  | expandStartStep s _ ih =>
    unfold expandStart expandStartBody
    split
    · exact ih
    · rcases hhd : s.months.head? with _ | firstMonth
      · simpa using ih
      · intro m hm
        simp only [List.mem_append] at hm
        rcases hm with hm | hm
        · exact mem_generateMonths_month_bounds _ _ _ _ m (List.mem_of_mem_filter hm)
        · exact ih m hm
  | jumpStep s b ty tm _ ih =>
    unfold jumpTo
    split
    · exact ih
    · intro m hm
      exact mem_generateMonths_month_bounds _ _ _ _ m
        (removeDuplicateMonths_subset _ m hm)

theorem jsRem_small (t : Int) (h1 : 0 ≤ t) (h2 : t < 12) : jsRem t 12 = t := by
  unfold jsRem
  split <;> omega

theorem jsFloorDiv_small (t : Int) (h1 : 0 ≤ t) (h2 : t < 12) :
    jsFloorDiv t 12 = 0 := by
  unfold jsFloorDiv
  rw [Int.fdiv_eq_ediv _ (by norm_num)]
  omega

theorem js_shift_neg (t : Int) (h1 : t < 0) (h2 : ¬(12 ∣ t)) :
    12 * jsFloorDiv t 12 + jsRem t 12 = t - 12 := by
  unfold jsFloorDiv jsRem
  rw [Int.fdiv_eq_ediv _ (by norm_num)]
  split <;> omega

theorem mem_generateMonths_two (py pm : Int) (e : EntriesByDate) (r : Month)
    (hr : r ∈ generateMonths py pm 2 e) :
    (r.year = py + jsFloorDiv pm 12 ∧ r.month = jsRem pm 12) ∨
      (r.year = py + jsFloorDiv (pm + 1) 12 ∧ r.month = jsRem (pm + 1) 12) := by
  unfold generateMonths at hr
  have h2 : List.range 2 = [0, 1] := rfl
  rw [h2] at hr
  simp only [List.map_cons, List.map_nil, List.mem_cons, List.not_mem_nil,
    or_false] at hr
  rcases hr with rfl | rfl
  · left
    constructor <;> simp
  · right
    constructor <;> simp

theorem getPreviousMonth_key (fy fm : Int) :
    (getPreviousMonth fy fm).1 * 12 + (getPreviousMonth fy fm).2 =
      fy * 12 + fm - 1 := by
  unfold getPreviousMonth
  split
  · rename_i h
    rw [beq_iff_eq] at h
    simp only []
    omega
  · simp only []
    omega

/-- Every month of the batch generated by `loadMoreMonthsStart` that
survives the key filter lies strictly before the window's first month in
linear calendar order, provided the first month's field is a JS remainder
(every reachable window satisfies this). -/
theorem expandStart_batch_lt (e : EntriesByDate) (months : List Month)
    (f : Month) (rest : List Month) (hm : months = f :: rest)
    (hbf : -12 < f.month ∧ f.month < 12) :
    ∀ r ∈ (generateMonths (getPreviousMonth f.year f.month).1
        (getPreviousMonth f.year f.month).2 2 e).filter
          (fun m => !(hasExistingKey months m)),
      monthKey r < monthKey f := by
  intro r hr
  have hkeep := List.of_mem_filter hr
  simp only [Bool.not_eq_true'] at hkeep
  have hne_pair : monthPair r ≠ monthPair f := by
    intro hpair
    have : hasExistingKey months r = true := by
      rw [hasExistingKey_iff, hpair, hm]
      exact List.mem_map_of_mem monthPair (List.mem_cons_self f rest)
    rw [hkeep] at this
    exact Bool.false_ne_true this
  have hmem := List.mem_of_mem_filter hr
  set py := (getPreviousMonth f.year f.month).1 with hpy
  set pm := (getPreviousMonth f.year f.month).2 with hpm
  have hkey : py * 12 + pm = f.year * 12 + f.month - 1 :=
    getPreviousMonth_key f.year f.month
  rcases mem_generateMonths_two py pm e r hmem with ⟨hy, hmo⟩ | ⟨hy, hmo⟩
  · -- first generated month: strictly below the old first key in both
    -- decomposition cases
    unfold monthKey
    rcases js_decomp pm with hd | ⟨hd, _, _, _⟩ <;> rw [hy, hmo] <;> omega
  · -- second generated month: either shifted a year down, or equal to the
    -- old first month and hence removed by the key filter
    simp only [monthPair, Prod.mk.injEq] at hne_pair
    unfold monthKey
    by_cases hf0 : f.month = 0
    · -- previous month is (fy - 1, 11); the second generated month is the
      -- old first month itself, contradicting the filter
      exfalso
      have hpm11 : pm = 11 := by
        rw [hpm]
        unfold getPreviousMonth
        rw [if_pos (beq_iff_eq.mpr hf0)]
      have hpy1 : py = f.year - 1 := by
        rw [hpy]
        unfold getPreviousMonth
        rw [if_pos (beq_iff_eq.mpr hf0)]
      rw [hpm11] at hy hmo
      have h1 : jsFloorDiv (11 + 1) 12 = 1 := by decide
      have h2 : jsRem (11 + 1) 12 = 0 := by decide
      rw [h1] at hy
      rw [h2] at hmo
      exact hne_pair (by rw [Prod.mk.injEq]; exact ⟨by omega, by omega⟩)
    · have hpmv : pm = f.month - 1 := by
        rw [hpm]
        unfold getPreviousMonth
        rw [if_neg (by simpa using hf0)]
      rw [hpmv] at hy hmo
      have hs : f.month - 1 + 1 = f.month := by omega
      rw [hs] at hy hmo
      have hpyv : py = f.year := by
        rw [hpy]
        unfold getPreviousMonth
        rw [if_neg (by simpa using hf0)]
      by_cases hfpos : 0 < f.month
      · -- the second generated month is again the old first month,
        -- contradicting the filter
        exfalso
        rw [jsFloorDiv_small f.month (by omega) hbf.2] at hy
        rw [jsRem_small f.month (by omega) hbf.2] at hmo
        exact hne_pair (by rw [Prod.mk.injEq]; exact ⟨by omega, by omega⟩)
      · -- negative first month: the generated month is shifted a year down
        have hfneg : f.month < 0 := by omega
        have hnd : ¬(12 ∣ f.month) := by omega
        have hshift := js_shift_neg f.month hfneg hnd
        omega

/-!
## Facts about the day grid
-/

theorem getFirstDayOfWeek_bounds (y m : Int) :
    0 ≤ getFirstDayOfWeek y m ∧ getFirstDayOfWeek y m < 7 := by
  unfold getFirstDayOfWeek dateGetDay
  exact ⟨Int.emod_nonneg _ (by norm_num), Int.emod_lt_of_pos _ (by norm_num)⟩

theorem getDaysInMonth_bounds (y m : Int) :
    28 ≤ getDaysInMonth y m ∧ getDaysInMonth y m ≤ 31 := by
  unfold getDaysInMonth monthLength
  split_ifs <;> norm_num

theorem takeWhile_append_all {α : Type} (p : α → Bool) (l1 l2 : List α)
    (h : ∀ x ∈ l1, p x = true) :
    (l1 ++ l2).takeWhile p = l1 ++ l2.takeWhile p := by
  induction l1 with
  | nil => simp
  | cons a t ih =>
    simp only [List.cons_append, List.takeWhile_cons]
    rw [h a (List.mem_cons_self _ _)]
    simp only [if_true]
    rw [ih (fun x hx => h x (List.mem_cons_of_mem _ hx))]

theorem takeWhile_cons_false {α : Type} (p : α → Bool) (a : α) (l : List α)
    (h : p a = false) : (a :: l).takeWhile p = [] := by
  simp [List.takeWhile_cons, h]

theorem generateMonthDays_eq_segments (year month : Int) (e : EntriesByDate) :
    generateMonthDays year month e =
      prevMonthDays year month e ++ curMonthDays year month e ++
        nextMonthDays year month e :=
  rfl

theorem prevMonthDays_length (year month : Int) (e : EntriesByDate) :
    (prevMonthDays year month e).length = (getFirstDayOfWeek year month).toNat := by
  unfold prevMonthDays
  simp

theorem curMonthDays_length (year month : Int) (e : EntriesByDate) :
    (curMonthDays year month e).length = (getDaysInMonth year month).toNat := by
  unfold curMonthDays
  simp

theorem nextMonthDays_length (year month : Int) (e : EntriesByDate) :
    (nextMonthDays year month e).length =
      (42 - (getFirstDayOfWeek year month + getDaysInMonth year month)).toNat := by
  unfold nextMonthDays
  simp

theorem mem_prevMonthDays_not_current (year month : Int) (e : EntriesByDate) :
    ∀ d ∈ prevMonthDays year month e, d.isCurrentMonth = false := by
  intro d hd
  obtain ⟨j, _, rfl⟩ := List.mem_map.mp hd
  rfl

theorem mem_day_segments_entries (year month : Int) (e : EntriesByDate) :
    ∀ d ∈ generateMonthDays year month e,
      d.journalEntries = lookupEntries e (formatDateToISO d.date) := by
  intro d hd
  rw [generateMonthDays_eq_segments] at hd
  rcases List.mem_append.mp hd with hd | hd
  · rcases List.mem_append.mp hd with hd | hd
    · obtain ⟨j, _, rfl⟩ := List.mem_map.mp hd
      rfl
    · obtain ⟨j, _, rfl⟩ := List.mem_map.mp hd
      rfl
  · obtain ⟨j, _, rfl⟩ := List.mem_map.mp hd
    rfl

/-!
## Facts about the dataset loader
-/

theorem allSome_eq_none {α : Type} (l : List (Option α)) (h : none ∈ l) :
    allSome l = none := by
  induction l with
  | nil => simp at h
  | cons a t ih =>
    cases a with
    | none => rfl
    | some x =>
      have ht : none ∈ t := by
        rcases List.mem_cons.mp h with h0 | h0
        · exact absurd h0 (by simp)
        · exact h0
      show (allSome t).map _ = none
      rw [ih ht]
      rfl

theorem addToGroup_inv (src : List JournalEntry) (en : JournalEntry)
    (hen : en ∈ src) :
    ∀ (g : EntriesByDate), (∀ p ∈ g, ∀ x ∈ p.2, x.date = p.1 ∧ x ∈ src) →
      ∀ p ∈ addToGroup g en, ∀ x ∈ p.2, x.date = p.1 ∧ x ∈ src := by
  intro g
  induction g with
  | nil =>
    intro _ p hp x hx
    simp only [addToGroup, List.mem_singleton] at hp
    subst hp
    simp only [List.mem_singleton] at hx
    subst hx
    exact ⟨rfl, hen⟩
  | cons q rest ih =>
    obtain ⟨k, l⟩ := q
    intro hg p hp x hx
    simp only [addToGroup] at hp
    by_cases hk : (k == en.date) = true
    · rw [if_pos hk] at hp
      rcases List.mem_cons.mp hp with rfl | hp2
      · rcases List.mem_append.mp hx with hxl | hxr
        · exact hg (k, l) (List.mem_cons_self _ _) x hxl
        · simp only [List.mem_singleton] at hxr
          subst hxr
          exact ⟨(beq_iff_eq.mp hk).symm, hen⟩
      · exact hg p (List.mem_cons_of_mem _ hp2) x hx
    · rw [if_neg hk] at hp
      rcases List.mem_cons.mp hp with rfl | hp2
      · exact hg (k, l) (List.mem_cons_self _ _) x hx
      · exact ih (fun p2 hp2b => hg p2 (List.mem_cons_of_mem _ hp2b)) p hp2 x hx

theorem addToGroup_complete (g : EntriesByDate) (en : JournalEntry) :
    ∃ p, p ∈ addToGroup g en ∧ p.1 = en.date ∧ en ∈ p.2 := by
  induction g with
  | nil =>
    refine ⟨(en.date, [en]), ?_, rfl, by simp⟩
    simp [addToGroup]
  | cons q rest ih =>
    obtain ⟨k, l⟩ := q
    by_cases hk : (k == en.date) = true
    · refine ⟨(k, l ++ [en]), ?_, beq_iff_eq.mp hk, by simp⟩
      simp only [addToGroup, if_pos hk]
      exact List.mem_cons_self _ _
    · obtain ⟨p, hp, h1, h2⟩ := ih
      refine ⟨p, ?_, h1, h2⟩
      simp only [addToGroup, if_neg hk]
      exact List.mem_cons_of_mem _ hp

theorem addToGroup_mono (g : EntriesByDate) (en : JournalEntry)
    (p : String × List JournalEntry) (hp : p ∈ g) (x : JournalEntry)
    (hx : x ∈ p.2) : ∃ q, q ∈ addToGroup g en ∧ q.1 = p.1 ∧ x ∈ q.2 := by
  induction g with
  | nil => simp at hp
  | cons q0 rest ih =>
    obtain ⟨k, l⟩ := q0
    by_cases hk : (k == en.date) = true
    · rcases List.mem_cons.mp hp with rfl | hp2
      · refine ⟨(k, l ++ [en]), ?_, rfl, List.mem_append_left _ hx⟩
        simp only [addToGroup, if_pos hk]
        exact List.mem_cons_self _ _
      · refine ⟨p, ?_, rfl, hx⟩
        simp only [addToGroup, if_pos hk]
        exact List.mem_cons_of_mem _ hp2
    · rcases List.mem_cons.mp hp with rfl | hp2
      · refine ⟨(k, l), ?_, rfl, hx⟩
        simp only [addToGroup, if_neg hk]
        exact List.mem_cons_self _ _
      · obtain ⟨q, hq, h1, h2⟩ := ih hp2
        refine ⟨q, ?_, h1, h2⟩
        simp only [addToGroup, if_neg hk]
        exact List.mem_cons_of_mem _ hq

theorem foldl_addToGroup_inv (src : List JournalEntry) :
    ∀ (l : List JournalEntry), (∀ x ∈ l, x ∈ src) →
      ∀ (g : EntriesByDate), (∀ p ∈ g, ∀ x ∈ p.2, x.date = p.1 ∧ x ∈ src) →
      ∀ p ∈ l.foldl addToGroup g, ∀ x ∈ p.2, x.date = p.1 ∧ x ∈ src := by
  intro l
  induction l with
  | nil =>
    intro _ g hg
    simpa using hg
  | cons en t ih =>
    intro hsub g hg
    simp only [List.foldl_cons]
    exact ih (fun x hx => hsub x (List.mem_cons_of_mem _ hx)) (addToGroup g en)
      (addToGroup_inv src en (hsub en (List.mem_cons_self _ _)) g hg)

theorem foldl_addToGroup_complete :
    ∀ (l : List JournalEntry) (g : EntriesByDate) (en : JournalEntry),
      ((∃ p, p ∈ g ∧ p.1 = en.date ∧ en ∈ p.2) ∨ en ∈ l) →
      ∃ p, p ∈ l.foldl addToGroup g ∧ p.1 = en.date ∧ en ∈ p.2 := by
  intro l
  induction l with
  | nil =>
    intro g en h
    rcases h with h | h
    · simpa using h
    · simp at h
  | cons a t ih =>
    intro g en h
    simp only [List.foldl_cons]
    apply ih
    rcases h with ⟨p, hp, h1, h2⟩ | h
    · left
      obtain ⟨q, hq, hq1, hq2⟩ := addToGroup_mono g a p hp en h2
      exact ⟨q, hq, by rw [hq1, h1], hq2⟩
    · rcases List.mem_cons.mp h with rfl | ht
      · left
        exact addToGroup_complete g en
      · right
        exact ht

theorem groupEntriesByDate_spec (entries : List JournalEntry) :
    (∀ p ∈ groupEntriesByDate entries,
        (∀ x ∈ p.2, x.date = p.1 ∧ x ∈ entries) ∧
        List.Sorted (fun a b => b.rating ≤ a.rating) p.2) ∧
      (∀ en ∈ entries, ∃ p, p ∈ groupEntriesByDate entries ∧
        p.1 = en.date ∧ en ∈ p.2) := by
  letI : IsTotal JournalEntry (fun a b => b.rating ≤ a.rating) :=
    ⟨fun a b => le_total b.rating a.rating⟩
  letI : IsTrans JournalEntry (fun a b => b.rating ≤ a.rating) :=
    ⟨fun a b c hab hbc => le_trans hbc hab⟩
  constructor
  · intro p hp
    simp only [groupEntriesByDate, List.mem_map] at hp
    obtain ⟨q, hq, rfl⟩ := hp
    constructor
    · intro x hx
      have hx2 : x ∈ q.2 := (List.mem_insertionSort _).mp hx
      exact foldl_addToGroup_inv entries entries (fun x hx3 => hx3) []
        (by simp) q hq x hx2
    · exact List.sorted_insertionSort _ _
  · intro en hen
    obtain ⟨q, hq, h1, h2⟩ :=
      foldl_addToGroup_complete entries [] en (Or.inr hen)
    refine ⟨(q.1, List.insertionSort (fun a b => b.rating ≤ a.rating) q.2),
      ?_, h1, ?_⟩
    · simp only [groupEntriesByDate, List.mem_map]
      exact ⟨q, hq, rfl⟩
    · exact (List.mem_insertionSort _).mpr h2

/-!
## Facts about `SwipeNavigator`
-/

theorem handleNavigate_some (c : Int) (s : SwipeState) (n i : Int)
    (h : (handleNavigate c s n).2 = some i) :
    i = n ∧ s.isAnimating = false ∧ ¬n = c := by
  unfold handleNavigate at h
  by_cases hg : (s.isAnimating || n == c) = true
  · rw [if_pos hg] at h
    exact absurd h (by simp)
  · rw [if_neg hg] at h
    simp only [Bool.or_eq_true, beq_iff_eq, not_or, Bool.not_eq_true] at hg
    simp only [Option.some.injEq] at h
    exact ⟨h.symm, hg.1, hg.2⟩

/-!
## Claim theorems
-/

/-- Claim C1 (failing evaluation): both copies of `generateMonths` violate
the floor-division normalization demanded by the specification.  The first
copy yields the record `(2023, -1)` for `generateMonths(2024, -1, 1)` — a
`month` field outside `0..11` — and at `startMonth = -12` its two records
have strictly decreasing `year*12+month` keys; the second copy yields
`(2023, 12)` for `generateMonths(2024, -12, 1)`, again outside `0..11`. -/
theorem c1_generateMonths_negative_offset_bug :
    ((generateMonths 2024 (-1) 1 []).map monthPair = [(2023, -1)]) ∧
      ((generateMonths 2024 (-12) 2 []).map monthKey = [24276, 24265]) ∧
      ((generateMonthsV2 2024 (-12) 1 []).map monthPair = [(2023, 12)]) := by
  decide

/-- Claim C2: after any finite sequence of `Initialize`, `ExpandStart`,
`ExpandEnd` and `JumpTo` operations starting from the empty window, the
months sequence contains no two records with the same `(year, month)`
key. -/
theorem c2_window_no_duplicate_keys (e : EntriesByDate) (s : EngineState)
    (h : Reachable e s) : ((s.months.map monthPair)).Nodup :=
  reachable_nodup h

/-- Witness for C2 at a concrete reachable state. -/
theorem c2_window_no_duplicate_keys_witness :
    (((initializeOp [] 2024 5 3 emptyEngine).months.map monthPair)).Nodup :=
  c2_window_no_duplicate_keys [] _ (Reachable.initStep _ 2024 5 3 Reachable.empty)

/-- Claim C3 (failing evaluation): `JumpTo(2020, 0)` with `bufferMonths = 1`
from the empty state produces the records `(2019, -1), (2020, 0), (2020, 1)`
— the first has a `month` field outside `0..11` and its key `24227` is not
consecutive with the key `24240` of January 2020 — though `visibleMonth` is
set to `(2020, 0)` as claimed. -/
theorem c3_jumpTo_window_bug :
    ((jumpTo [] 1 2020 0 emptyEngine).months.map monthPair =
        [(2019, -1), (2020, 0), (2020, 1)]) ∧
      ((jumpTo [] 1 2020 0 emptyEngine).currentVisibleMonth = some (2020, 0)) ∧
      ((jumpTo [] 1 2020 0 emptyEngine).months.map monthKey =
        [24227, 24240, 24241]) := by
  decide

/-- Claim C4 counterexample: `Initialize(2024, 5, bufferMonths = 3)` does
not produce the ordered sequence March 2024 .. September 2024 — the
initialisation effect deliberately sorts the initial month to the front. -/
theorem c4_initialize_order_counterexample :
    ¬((initializeOp [] 2024 5 3 emptyEngine).months.map monthPair =
        [(2024, 2), (2024, 3), (2024, 4), (2024, 5), (2024, 6), (2024, 7),
          (2024, 8)]) := by
  decide

/-- Claim C4 as amended: `Initialize(2024, 5, bufferMonths = 3)` produces a
7-month window holding exactly March 2024 through September 2024, ordered
with the initial month June 2024 first (June, March, April, May, July,
August, September), and sets `visibleMonth` to `(2024, 5)`. -/
theorem c4_initialize_window_amended :
    ((initializeOp [] 2024 5 3 emptyEngine).months.map monthPair =
        [(2024, 5), (2024, 2), (2024, 3), (2024, 4), (2024, 6), (2024, 7),
          (2024, 8)]) ∧
      ((initializeOp [] 2024 5 3 emptyEngine).currentVisibleMonth =
        some (2024, 5)) := by
  decide

/-- Claim C5: while an expansion is pending (`isLoading` raised), a
`loadMoreMonthsEnd` call is dropped as a no-op — it adds no months and
leaves the whole state unchanged — and two calls inside the same pending
window schedule at most one batch. -/
theorem c5_expandEnd_dropped_while_pending (s : PendingState) :
    (s.isLoading = true → loadMoreMonthsEndCall s = s) ∧
      (loadMoreMonthsEndCall (loadMoreMonthsEndCall s)).pendingEndBatches ≤
        s.pendingEndBatches + 1 := by
  constructor
  · intro h
    unfold loadMoreMonthsEndCall
    rw [h]
    simp
  · unfold loadMoreMonthsEndCall
    by_cases h1 : (s.isLoading || s.isScrollLocked) = true
    · simp only [if_pos h1]
      omega
    · simp only [if_neg h1]
      simp

/-- Witness for C5: a concrete pending state is left exactly unchanged. -/
theorem c5_expandEnd_dropped_while_pending_witness :
    loadMoreMonthsEndCall
        { months := [], currentVisibleMonth := none, isLoading := true,
          isScrollLocked := false, pendingEndBatches := 1 } =
      { months := [], currentVisibleMonth := none, isLoading := true,
        isScrollLocked := false, pendingEndBatches := 1 } :=
  (c5_expandEnd_dropped_while_pending _).1 rfl

/-- Claim C6: on every engine state with a non-empty window (reachable
states are never pending between completed operations — both flags are
false, which this proof uses), `ExpandStart` only prepends: the added
months are computed from the month immediately before the previous first
entry and filtered against the existing keys, every previously present
record remains with its relative order preserved (the old window is a
suffix), every added record lies strictly before the old first month in
calendar order, and the resulting window is duplicate-free (in particular
the new first element's key is unique in the window). -/
theorem c6_expandStart_prepends (e : EntriesByDate) (s : EngineState)
    (h : Reachable e s) (f : Month) (hf : s.months.head? = some f) :
    ∃ added,
      added = (generateMonths (getPreviousMonth f.year f.month).1
          (getPreviousMonth f.year f.month).2 2 e).filter
            (fun m => !(hasExistingKey s.months m)) ∧
      (expandStart e s).months = added ++ s.months ∧
      (∀ r ∈ added, monthKey r < monthKey f) ∧
      ((expandStart e s).months.map monthPair).Nodup := by
  obtain ⟨hL, hK⟩ := reachable_flags h
  have hbounds := reachable_month_bounds h
  have hnd := reachable_nodup h
  have hguard : expandStart e s = expandStartBody e s := by
    unfold expandStart
    rw [hL, hK]
    simp
  have hbody : (expandStartBody e s).months =
      (generateMonths (getPreviousMonth f.year f.month).1
        (getPreviousMonth f.year f.month).2 2 e).filter
          (fun m => !(hasExistingKey s.months m)) ++ s.months := by
    unfold expandStartBody
    rw [hf]
  have hm : s.months = f :: s.months.tail := (List.cons_head?_tail hf).symm
  refine ⟨_, rfl, ?_, ?_, ?_⟩
  · rw [hguard, hbody]
  · exact expandStart_batch_lt e s.months f s.months.tail hm
      (hbounds f (by rw [hm]; exact List.mem_cons_self _ _))
  · rw [hguard, hbody]
    exact (nodup_append_batch s.months _ hnd (generateMonths_two_nodup _ _ e)).2

/-- Witness for C6: expanding the start of the window produced by
`JumpTo(2024, 5)` with `bufferMonths = 1`. -/
theorem c6_expandStart_prepends_witness :
    ∃ added,
      added = (generateMonths (getPreviousMonth 2024 4).1
          (getPreviousMonth 2024 4).2 2 []).filter
            (fun m => !(hasExistingKey (jumpTo [] 1 2024 5 emptyEngine).months m)) ∧
      (expandStart [] (jumpTo [] 1 2024 5 emptyEngine)).months =
        added ++ (jumpTo [] 1 2024 5 emptyEngine).months ∧
      (∀ r ∈ added, monthKey r <
        monthKey { year := 2024, month := 4, days := generateMonthDays 2024 4 [] }) ∧
      (((expandStart [] (jumpTo [] 1 2024 5 emptyEngine)).months.map monthPair)).Nodup :=
  c6_expandStart_prepends [] (jumpTo [] 1 2024 5 emptyEngine)
    (Reachable.jumpStep _ 1 2024 5 Reachable.empty)
    { year := 2024, month := 4, days := generateMonthDays 2024 4 [] } rfl

/-- Claim C7 (failing evaluation): with a single rendered element for
January 2024 (`month = 0`) centered exactly on the container center and the
current visible month December 2023, the scan selects `(2024, 0)` — which
differs from the current value — yet `detectVisibleMonth` leaves the
visible month unchanged, because the update is guarded by
`closestMonth > 0`, which excludes January. -/
theorem c7_detectVisibleMonth_january_bug :
    detectVisibleMonth 0 [{ center := 0, year := 2024, month := 0 }]
        (some (2023, 11)) = some (2023, 11) ∧
      (closestScan 0 [{ center := 0, year := 2024, month := 0 }]).2 =
        (2024, 0) := by
  decide

/-- Claim C8: for every `(year, month)` and entries map, `generateMonthDays`
returns exactly 42 `Day` entries; the count of leading entries with
`isCurrentMonth = false` equals `firstWeekdayOfMonth(year, month)`; and a
day whose ISO key is missing from the entries map gets an empty
`journalEntries` list rather than an error. -/
theorem c8_generateMonthDays_grid (year month : Int) (e : EntriesByDate) :
    (generateMonthDays year month e).length = 42 ∧
      (((generateMonthDays year month e).takeWhile
          (fun d => !d.isCurrentMonth)).length : Int) =
        getFirstDayOfWeek year month ∧
      ∀ d ∈ generateMonthDays year month e,
        List.lookup (formatDateToISO d.date) e = none → d.journalEntries = [] := by
  obtain ⟨hf0, hf7⟩ := getFirstDayOfWeek_bounds year month
  obtain ⟨hd28, hd31⟩ := getDaysInMonth_bounds year month
  refine ⟨?_, ?_, ?_⟩
  · rw [generateMonthDays_eq_segments]
    simp only [List.length_append, prevMonthDays_length, curMonthDays_length,
      nextMonthDays_length]
    omega
  · rw [generateMonthDays_eq_segments, List.append_assoc]
    rw [takeWhile_append_all _ _ _ (fun x hx => by
      rw [mem_prevMonthDays_not_current year month e x hx]
      rfl)]
    have hcur : ((curMonthDays year month e ++ nextMonthDays year month e).takeWhile
        (fun d => !d.isCurrentMonth)) = [] := by
      have hpos : (getDaysInMonth year month).toNat =
          ((getDaysInMonth year month).toNat - 1) + 1 := by omega
      unfold curMonthDays
      rw [hpos, List.range_succ_eq_map, List.map_cons, List.cons_append]
      exact takeWhile_cons_false _ _ _ rfl
    rw [hcur, List.append_nil, prevMonthDays_length]
    exact Int.toNat_of_nonneg hf0
  · intro d hd hlook
    rw [mem_day_segments_entries year month e d hd]
    unfold lookupEntries
    rw [hlook]
    rfl

/-- Witness for C8 at June 2024 with an empty entries map. -/
theorem c8_generateMonthDays_grid_witness :
    (generateMonthDays 2024 5 []).length = 42 ∧
      (((generateMonthDays 2024 5 []).takeWhile
          (fun d => !d.isCurrentMonth)).length : Int) = getFirstDayOfWeek 2024 5 ∧
      ((generateMonthDays 2024 5 []).get ⟨0, by decide⟩).journalEntries = [] := by
  have h := c8_generateMonthDays_grid 2024 5 []
  exact ⟨h.1, h.2.1, h.2.2 _ (List.get_mem _ _ _) rfl⟩

/-- Claim C9: `loadJournalData` never propagates an error: a fetch or JSON
failure yields the empty mapping, a raw date string on which the parse
throws yields the empty mapping, the URL and raw-array inputs agree, and on
success the result is the transformed entries grouped by their ISO date
with each date's list sorted by rating descending. -/
theorem c9_loadJournalData :
    (loadJournalData (Sum.inl none) = []) ∧
      (∀ rawData, loadJournalData (Sum.inl (some rawData)) =
        loadJournalData (Sum.inr rawData)) ∧
      (∀ rawData, ∀ raw ∈ rawData, parseDDMMYYYYToISO raw.date = none →
        loadJournalData (Sum.inr rawData) = []) ∧
      (∀ rawData, ∀ p ∈ loadJournalData (Sum.inr rawData),
        (∀ x ∈ p.2, x.date = p.1 ∧ x ∈ loadJournalEntries rawData) ∧
        List.Sorted (fun a b => b.rating ≤ a.rating) p.2) ∧
      (∀ rawData, ∀ en ∈ loadJournalEntries rawData,
        ∃ p, p ∈ loadJournalData (Sum.inr rawData) ∧
          p.1 = en.date ∧ en ∈ p.2) := by
  refine ⟨rfl, fun rawData => rfl, ?_, ?_, ?_⟩
  · intro rawData raw hraw hparse
    have htrans : transformRawEntry raw = fun _ => none := by
      funext i
      unfold transformRawEntry
      rw [hparse]
      rfl
    obtain ⟨i, hget⟩ := List.mem_iff_getElem?.mp hraw
    have hmem : (i, raw) ∈ rawData.enum :=
      List.mk_mem_enum_iff_getElem?.mpr hget
    have hnone : none ∈ rawData.enum.map
        (fun p => transformRawEntry p.2 p.1) := by
      have hmm := List.mem_map_of_mem
        (fun (p : Nat × RawJournalEntry) => transformRawEntry p.2 p.1) hmem
      simpa [htrans] using hmm
    show groupEntriesByDate (loadJournalEntries rawData) = []
    unfold loadJournalEntries
    rw [allSome_eq_none _ hnone]
    rfl
  · intro rawData
    exact (groupEntriesByDate_spec (loadJournalEntries rawData)).1
  · intro rawData
    exact (groupEntriesByDate_spec (loadJournalEntries rawData)).2

/-- Witness for C9 with a failed fetch, an unparseable date and a
one-entry dataset. -/
theorem c9_loadJournalData_witness :
    loadJournalData (Sum.inl none) = [] ∧
      loadJournalData (Sum.inr
        [{
          imgUrl := ("i"), rating := 2, categories := [], date := ("x"),
          description := ("d") }]) = [] ∧
      List.Sorted (fun a b => b.rating ≤ a.rating)
        ([{
          id := ("entry_15032024_0"), date := ("2024-03-15"), imgUrl := ("i"),
          rating := 5, categories := [("c")], description := ("d") }] :
          List JournalEntry) := by
  have h := c9_loadJournalData
  refine ⟨h.1, ?_, ?_⟩
  · exact h.2.2.1 _ _ (List.mem_cons_self _ _) (by decide)
  · exact (h.2.2.2.1
      [{
        imgUrl := ("i"), rating := 5, categories := [("c")],
        date := ("15/03/2024"), description := ("d") }]
      (("2024-03-15"),
        [{
          id := ("entry_15032024_0"), date := ("2024-03-15"), imgUrl := ("i"),
          rating := 5, categories := [("c")], description := ("d") }])
      (by decide)).2

/-- Claim C10: for every `total ≥ 1` and `currentIndex ∈ [0, total-1]`,
every input path of `SwipeNavigator` (arrow/Home/End keys, touch release,
previous/next buttons) invokes `onNavigate` only with an index inside
`[0, total-1]` that differs from `currentIndex`, and never while the
navigation animation is in progress. -/
theorem c10_swipe_onNavigate (currentIndex total : Int)
    (minSwipeDistance minSwipeVelocity : ℚ) (s : SwipeState) (ev : SwipeEvent)
    (i : Int) (h1 : 1 ≤ total) (h2 : 0 ≤ currentIndex)
    (h3 : currentIndex ≤ total - 1)
    (hstep : (swipeStep currentIndex total minSwipeDistance minSwipeVelocity s ev).2 =
      some i) :
    0 ≤ i ∧ i ≤ total - 1 ∧ i ≠ currentIndex ∧ s.isAnimating = false := by
  cases ev with
  | keyDown k =>
    unfold swipeStep at hstep
    simp only [] at hstep
    unfold handleKeyDown at hstep
    by_cases ha : s.isAnimating = true
    · rw [if_pos ha] at hstep
      exact absurd hstep (by simp)
    · rw [if_neg ha] at hstep
      cases k with
      | arrowLeft =>
        simp only [] at hstep
        split_ifs at hstep with hlt
        · obtain ⟨rfl, hanim, hne⟩ := handleNavigate_some _ _ _ _ hstep
          refine ⟨by omega, by omega, by omega, hanim⟩
      | keyH =>
        simp only [] at hstep
        split_ifs at hstep with hlt
        · obtain ⟨rfl, hanim, hne⟩ := handleNavigate_some _ _ _ _ hstep
          refine ⟨by omega, by omega, by omega, hanim⟩
      | arrowRight =>
        simp only [] at hstep
        split_ifs at hstep with hlt
        · obtain ⟨rfl, hanim, hne⟩ := handleNavigate_some _ _ _ _ hstep
          refine ⟨by omega, by omega, by omega, hanim⟩
      | keyL =>
        simp only [] at hstep
        split_ifs at hstep with hlt
        · obtain ⟨rfl, hanim, hne⟩ := handleNavigate_some _ _ _ _ hstep
          refine ⟨by omega, by omega, by omega, hanim⟩
      | homeKey =>
        simp only [] at hstep
        obtain ⟨rfl, hanim, hne⟩ := handleNavigate_some _ _ _ _ hstep
        refine ⟨by omega, by omega, by omega, hanim⟩
      | endKey =>
        simp only [] at hstep
        obtain ⟨rfl, hanim, hne⟩ := handleNavigate_some _ _ _ _ hstep
        refine ⟨by omega, by omega, by omega, hanim⟩
      | otherKey =>
        simp only [] at hstep
        exact absurd hstep (by simp)
  | touchRelease now =>
    unfold swipeStep at hstep
    simp only [] at hstep
    unfold handleTouchEnd at hstep
    by_cases hg : (jsFalsyCoord s.touchStart || jsFalsyCoord s.touchEnd ||
        s.isAnimating) = true
    · rw [if_pos hg] at hstep
      exact absurd hstep (by simp)
    · rw [if_neg hg] at hstep
      simp only [] at hstep
      split_ifs at hstep with hnext hprev
      · simp only [Bool.and_eq_true, decide_eq_true_eq] at hnext
        obtain ⟨rfl, hanim, hne⟩ := handleNavigate_some _ _ _ _ hstep
        refine ⟨by omega, by omega, by omega, hanim⟩
      · simp only [Bool.and_eq_true, decide_eq_true_eq] at hprev
        obtain ⟨rfl, hanim, hne⟩ := handleNavigate_some _ _ _ _ hstep
        refine ⟨by omega, by omega, by omega, hanim⟩
  | prevButton =>
    unfold swipeStep at hstep
    simp only [] at hstep
    unfold goToPrevious at hstep
    split_ifs at hstep with hlt
    · obtain ⟨rfl, hanim, hne⟩ := handleNavigate_some _ _ _ _ hstep
      refine ⟨by omega, by omega, by omega, hanim⟩
  | nextButton =>
    unfold swipeStep at hstep
    simp only [] at hstep
    unfold goToNext at hstep
    split_ifs at hstep with hlt
    · obtain ⟨rfl, hanim, hne⟩ := handleNavigate_some _ _ _ _ hstep
      refine ⟨by omega, by omega, by omega, hanim⟩

/-- Witness for C10: the End key from index 0 of 2 emits index 1. -/
theorem c10_swipe_onNavigate_witness :
    0 ≤ (1 : Int) ∧ (1 : Int) ≤ 2 - 1 ∧ (1 : Int) ≠ 0 ∧
      ({
        touchStart := none, touchEnd := none, isAnimating := false,
        gestureStartTime := 0 } : SwipeState).isAnimating = false :=
  c10_swipe_onNavigate 0 2 40 (35 / 100)
    {
      touchStart := none, touchEnd := none, isAnimating := false,
      gestureStartTime := 0 }
    (SwipeEvent.keyDown SwipeKey.endKey) 1 (by norm_num) (by norm_num)
    (by norm_num) (by decide)

end Cal

